import Mathlib

/-!
Shallow embedding of the tournament standings engine of `app.py`
(`commander-torneo`): the record-store data model, the scoring rule
`points_for_position`, and the standings computation performed by the
`index` view (totals, participation, point bounds, verdicts, ranking).

Python dictionaries keyed by player id are modelled as association lists;
`defaultdict` counters as total functions; Python's stable `sort`/`sorted`
as a stable insertion sort; a lookup that can raise (`KeyError`,
`IndexError`) returns `Except String`.
-/

abbrev PlayerId := Nat

structure Player where
  id : PlayerId
  name : String
  active : Bool
deriving DecidableEq, Repr

structure RoundInfo where
  number : Nat
  byePlayerId : Option PlayerId
deriving DecidableEq, Repr

structure GameResult where
  playerId : PlayerId
  position : Option Int
deriving DecidableEq, Repr

structure Game where
  roundNumber : Nat
  tableNo : Nat
  sweep : Bool
  savePlayerId : Option PlayerId
  results : List GameResult
deriving DecidableEq, Repr

structure Store where
  players : List Player
  rounds : List RoundInfo
  games : List Game
deriving DecidableEq, Repr

/-- Scoring rule of `app.py` (`points_for_position`): `None` scores 0; under a
sweep only position 1 scores (3); otherwise 1st=3, 2nd=2, 3rd=1, anything
else 0. -/
def points_for_position (position : Option Int) (sweep : Bool) : Int :=
  match position with
  | none => 0
  | some p =>
    if sweep then
      if p = 1 then 3 else 0
    else if p = 1 then 3
    else if p = 2 then 2
    else if p = 3 then 1
    else 0

/-- Python string comparison: lexicographic on code points. -/
def charListLe : List Char → List Char → Bool
  | [], _ => true
  | _ :: _, [] => false
  | a :: as, b :: bs =>
    if a.toNat < b.toNat then true
    else if b.toNat < a.toNat then false
    else charListLe as bs

def strLe (a b : String) : Bool := charListLe a.data b.data

/-- Insert into a sorted list, in front of the first element `b` with
`le a b`; equal elements from the tail therefore stay behind `a`. -/
def insertSorted (le : α → α → Bool) (a : α) : List α → List α
  | [] => [a]
  | b :: l => if le a b then a :: b :: l else b :: insertSorted le a l

/-- Stable insertion sort; models Python's stable `sort` / `sorted`. -/
def stableSort (le : α → α → Bool) : List α → List α
  | [] => []
  | a :: l => insertSorted le a (stableSort le l)

/-- `Player.query.filter_by(active=True).order_by(Player.name.asc())`. -/
def activePlayers (s : Store) : List Player :=
  stableSort (fun a b => strLe a.name b.name) (s.players.filter (fun p => p.active))

/-- One entry of the `totals` dictionary (medal counts plus saves). -/
structure Totals where
  name : String
  points : Int
  wins : Nat
  seconds : Nat
  thirds : Nat
  saves : Nat
deriving DecidableEq, Repr

def lookupT : List (PlayerId × Totals) → PlayerId → Option Totals
  | [], _ => none
  | (k, t) :: rest, pid => if k = pid then some t else lookupT rest pid

def updateT (f : Totals → Totals) : List (PlayerId × Totals) → PlayerId → List (PlayerId × Totals)
  | [], _ => []
  | (k, t) :: rest, pid => if k = pid then (k, f t) :: rest else (k, t) :: updateT f rest pid

def containsT (totals : List (PlayerId × Totals)) (pid : PlayerId) : Bool :=
  (lookupT totals pid).isSome

/-- The zeroed `totals` dictionary, one entry per active player. -/
def initTotals (players : List Player) : List (PlayerId × Totals) :=
  players.map (fun p => (p.id, ⟨p.name, 0, 0, 0, 0, 0⟩))

/-- Truthiness of an optional player id in Python (`if ri.bye_player_id:`). -/
def idTruthy : Option PlayerId → Bool
  | none => false
  | some pid => decide (pid ≠ 0)

/-- `rests_by_player`: how many rounds designate this player as the bye. -/
def restsByPlayer (rounds : List RoundInfo) (pid : PlayerId) : Nat :=
  rounds.countP (fun ri => idTruthy ri.byePlayerId && decide (ri.byePlayerId = some pid))

/-- Add a round number to a set of rounds (modelled as a duplicate-free list). -/
def insertNew (n : Nat) (l : List Nat) : List Nat :=
  if n ∈ l then l else l ++ [n]

/-- Round numbers collected from the `RoundInfo` records. -/
def allRoundsInit (rounds : List RoundInfo) : List Nat :=
  rounds.foldl (fun acc ri => insertNew ri.number acc) []

/-- Mutable state of the games loop in `index`: the `totals` dict, the
`played_rounds` per-player round sets, and the `all_rounds` set. -/
structure AccState where
  totals : List (PlayerId × Totals)
  played : PlayerId → List Nat
  allRounds : List Nat

/-- Line 219 of `app.py`: a table has a winner if some result holds
position 1 or the sweep flag is set. -/
def hasWinner (g : Game) : Bool :=
  g.results.any (fun r => decide (r.position = some 1)) || g.sweep

/-- The per-result update of `totals` (points plus the win/second/third
counter `elif` chain). -/
def bumpResult (r : GameResult) (sweep : Bool) (t : Totals) : Totals :=
  let pts := points_for_position r.position sweep
  let t1 : Totals := { t with points := t.points + pts }
  if r.position = some 1 then { t1 with wins := t1.wins + 1 }
  else if r.position = some 2 then { t1 with seconds := t1.seconds + 1 }
  else if r.position = some 3 then { t1 with thirds := t1.thirds + 1 }
  else t1

/-- Body of the inner `for r in g.results` loop: `totals[r.player_id]`
raises `KeyError` when the result's player is not an active player. -/
def procResult (sweep : Bool) (hasWin : Bool) (roundNo : Nat) (st : AccState) (r : GameResult) :
    Except String AccState :=
  match lookupT st.totals r.playerId with
  | none => .error "KeyError"
  | some _ =>
    let st1 : AccState := { st with totals := updateT (bumpResult r sweep) st.totals r.playerId }
    if hasWin then
      .ok { st1 with
            played := fun pid =>
              if pid = r.playerId then insertNew roundNo (st1.played pid) else st1.played pid }
    else .ok st1

/-- The save ("salvavidas") bonus: guarded by the player being a key of
`totals`, i.e. an active player. -/
def applySave (totals : List (PlayerId × Totals)) : Option PlayerId → List (PlayerId × Totals)
  | none => totals
  | some pid =>
    if decide (pid ≠ 0) && containsT totals pid then
      updateT (fun t => { t with points := t.points + 1, saves := t.saves + 1 }) totals pid
    else totals

/-- Body of the `for g in games` loop in `index`. -/
def procGame (st : AccState) (g : Game) : Except String AccState :=
  let st1 : AccState := { st with allRounds := insertNew g.roundNumber st.allRounds }
  let st2 : AccState := { st1 with totals := applySave st1.totals g.savePlayerId }
  g.results.foldlM (procResult g.sweep (hasWinner g) g.roundNumber) st2

/-- `Game.query.order_by(Game.round_number.asc(), Game.table_no.asc())`. -/
def gameLe (a b : Game) : Bool :=
  if a.roundNumber ≠ b.roundNumber then decide (a.roundNumber < b.roundNumber)
  else decide (a.tableNo ≤ b.tableNo)

def sortedGames (s : Store) : List Game := stableSort gameLe s.games

/-- The whole accumulation phase of `index` (rests, all rounds, totals,
played rounds). -/
def accumulate (s : Store) : Except String AccState :=
  (sortedGames s).foldlM procGame
    ⟨initTotals (activePlayers s), fun _ => [], allRoundsInit s.rounds⟩

/-- One row of the `per_player` dictionary. -/
structure PerPlayer where
  id : PlayerId
  name : String
  points : Int
  wins : Nat
  seconds : Nat
  thirds : Nat
  saves : Nat
  played : Nat
  rests : Nat
  planned_to_play : Int
  remaining : Int
  lb : Int
  ub : Int
deriving DecidableEq, Repr

/-- Lines 239-260 of `app.py`: participation counts and the point bounds of
one active player. -/
def mkPerPlayer (totalRounds : Nat) (st : AccState) (rests : PlayerId → Nat) (p : Player) :
    Except String PerPlayer :=
  match lookupT st.totals p.id with
  | none => .error "KeyError"
  | some t =>
    let played := (st.played p.id).length
    let r := rests p.id
    let planned : Int := max ((totalRounds : Int) - (r : Int)) 0
    let remaining : Int := max (planned - (played : Int)) 0
    let lb := t.points
    let ub := lb + 4 * remaining
    .ok ⟨p.id, t.name, t.points, t.wins, t.seconds, t.thirds, t.saves, played, r, planned,
      remaining, lb, ub⟩

/-- The `per_player` rows in active-player (name) order. -/
def perPlayerRows (st : AccState) (s : Store) : Except String (List PerPlayer) :=
  (activePlayers s).mapM (mkPerPlayer st.allRounds.length st (restsByPlayer s.rounds))

/-- Descending comparison used for `sorted(..., reverse=True)` on bounds. -/
def intGe (a b : Int) : Bool := decide (b ≤ a)

/-- The rivals of `me`: every other row of `per_player`. -/
def rivalsOf (rows : List PerPlayer) (me : PerPlayer) : List PerPlayer :=
  rows.filter (fun q => decide (q.id ≠ me.id))

/-- `rival_LBs`: the rivals' lower bounds sorted descending. -/
def rivalLBs (rows : List PerPlayer) (me : PerPlayer) : List Int :=
  stableSort intGe ((rivalsOf rows me).map (fun q => q.lb))

/-- `rival_UBs`: the rivals' upper bounds sorted descending. -/
def rivalUBs (rows : List PerPlayer) (me : PerPlayer) : List Int :=
  stableSort intGe ((rivalsOf rows me).map (fun q => q.ub))

/-- Lines 263-281 of `app.py`: the verdict of one player; indexing the
4th-best rival fails when fewer than 4 rivals exist. -/
def verdictFor (rows : List PerPlayer) (me : PerPlayer) : Except String (Option String) :=
  match (rivalLBs rows me)[3]?, (rivalUBs rows me)[3]? with
  | some fourthLB, some fourthUB =>
    .ok (if fourthUB < me.lb then some "CLASIFICADO"
         else if me.ub < fourthLB then some "ELIMINADO"
         else none)
  | _, _ => .error "list index out of range"

/-- The verdict loop over all players. -/
def addVerdicts (rows : List PerPlayer) : Except String (List (PerPlayer × Option String)) :=
  rows.mapM (fun me => (verdictFor rows me).map (fun v => (me, v)))

/-- One row of the main standings table (before the rank is attached). -/
structure TableRow where
  id : PlayerId
  name : String
  points : Int
  wins : Nat
  seconds : Nat
  thirds : Nat
  saves : Nat
  status : Option String
deriving DecidableEq, Repr

def mkTableRow (x : PerPlayer × Option String) : TableRow :=
  ⟨x.1.id, x.1.name, x.1.points, x.1.wins, x.1.seconds, x.1.thirds, x.1.saves, x.2⟩

/-- The medal sort key `(points, wins, seconds, thirds)`. -/
def tupleKey (t : TableRow) : Int × Nat × Nat × Nat := (t.points, t.wins, t.seconds, t.thirds)

/-- Lexicographic order on the medal key, as Python compares tuples. -/
def keyLe (a b : Int × Nat × Nat × Nat) : Bool :=
  if a.1 ≠ b.1 then decide (a.1 < b.1)
  else if a.2.1 ≠ b.2.1 then decide (a.2.1 < b.2.1)
  else if a.2.2.1 ≠ b.2.2.1 then decide (a.2.2.1 < b.2.2.1)
  else decide (a.2.2.2 ≤ b.2.2.2)

/-- Lines 297-298 of `app.py`: stable sort by name, then stable sort by the
medal key descending. -/
def sortTable (rows : List TableRow) : List TableRow :=
  stableSort (fun a b => keyLe (tupleKey b) (tupleKey a))
    (stableSort (fun a b => strLe a.name b.name) rows)

/-- Lines 301-308 of `app.py`: standard competition ranking over the sorted
table (`last_key` / `current_pos` / `enumerate(start=1)`). -/
def assignPos : List TableRow → Option (Int × Nat × Nat × Nat) → Nat → Nat →
    List (TableRow × Nat)
  | [], _, _, _ => []
  | t :: ts, lastKey, currentPos, i =>
    let key := tupleKey t
    let pos := if some key = lastKey then currentPos else i
    (t, pos) :: assignPos ts (some key) pos (i + 1)

def rankTable (rows : List TableRow) : List (TableRow × Nat) := assignPos rows none 0 1

/-- One row of the participation section. -/
structure Participation where
  name : String
  played : Nat
  remaining : Int
  rests : Nat
  planned_to_play : Int
deriving DecidableEq, Repr

def mkParticipation (r : PerPlayer) : Participation :=
  ⟨r.name, r.played, r.remaining, r.rests, r.planned_to_play⟩

/-- What the `index` view hands to the template. -/
structure Output where
  table : List (TableRow × Nat)
  participation : List Participation
  total_rounds : Nat
deriving Repr

/-- The standings computation of the `index` view of `app.py`. -/
def index (s : Store) : Except String Output := do
  let st ← accumulate s
  let rows ← perPlayerRows st s
  let withStatus ← addVerdicts rows
  let table := rankTable (sortTable (withStatus.map mkTableRow))
  let participation := stableSort (fun a b => strLe a.name b.name) (rows.map mkParticipation)
  .ok ⟨table, participation, st.allRounds.length⟩

/-- Whether an engine computation failed. -/
def isErr {α : Type} : Except String α → Bool
  | .error _ => true
  | .ok _ => false

/-! ### Concrete record-store states on which the engine is evaluated -/

/-- A store holding a single active player. -/
def storeOne : Store := ⟨[⟨1, "Solo", true⟩], [], []⟩

/-- A store where the inactive player Bob still owns a stored game result. -/
def storeGhost : Store :=
  ⟨[⟨1, "Alice", true⟩, ⟨2, "Bob", false⟩], [], [⟨1, 1, false, none, [⟨2, some 1⟩]⟩]⟩

/-- Five active players, no rounds, no games. -/
def storeFive : Store :=
  ⟨[⟨1, "A", true⟩, ⟨2, "B", true⟩, ⟨3, "C", true⟩, ⟨4, "D", true⟩, ⟨5, "E", true⟩], [], []⟩

def tableRowZero (pid : PlayerId) (nm : String) : TableRow := ⟨pid, nm, 0, 0, 0, 0, 0, none⟩

/-- What `index` renders for `storeFive`. -/
def outFive : Output :=
  ⟨[(tableRowZero 1 "A", 1), (tableRowZero 2 "B", 1), (tableRowZero 3 "C", 1),
    (tableRowZero 4 "D", 1), (tableRowZero 5 "E", 1)],
   [⟨"A", 0, 0, 0, 0⟩, ⟨"B", 0, 0, 0, 0⟩, ⟨"C", 0, 0, 0, 0⟩, ⟨"D", 0, 0, 0, 0⟩,
    ⟨"E", 0, 0, 0, 0⟩],
   0⟩

/-- One active player, two rounds, the first round designating them the bye. -/
def storeBye : Store := ⟨[⟨1, "A", true⟩], [⟨1, some 1⟩, ⟨2, none⟩], []⟩

/-- The accumulator state `accumulate` reaches on `storeBye`. -/
def stBye : AccState := ⟨[(1, ⟨"A", 0, 0, 0, 0, 0⟩)], fun _ => [], [1, 2]⟩

/-- The `per_player` row of player A in `storeBye`. -/
def rowBye : PerPlayer := ⟨1, "A", 0, 0, 0, 0, 0, 0, 1, 1, 1, 0, 4⟩

/-- A one-player accumulator state with empty counters. -/
def stA : AccState := ⟨[(1, ⟨"A", 0, 0, 0, 0, 0⟩)], fun _ => [], []⟩

/-- A resolved table (winner recorded). -/
def gWin : Game := ⟨1, 1, false, none, [⟨1, some 1⟩]⟩

/-- The state after processing `gWin` from `stA`. -/
def stAWin : AccState :=
  ⟨[(1, ⟨"A", 3, 1, 0, 0, 0⟩)], fun pid => if pid = 1 then [1] else [], [1]⟩

/-- An unresolved table (no winner, no sweep). -/
def gNoWin : Game := ⟨2, 1, false, none, [⟨1, none⟩]⟩

/-- The state after processing `gNoWin` from `stA`. -/
def stANoWin : AccState := ⟨[(1, ⟨"A", 0, 0, 0, 0, 0⟩)], fun _ => [], [2]⟩

/-- A table designating the absent player 2 as save player. -/
def gSaveGhost : Game := ⟨1, 1, false, some 2, [⟨1, some 1⟩]⟩

/-- A table designating the active player 1 as save player. -/
def gSaveActive : Game := ⟨1, 1, false, some 1, [⟨1, some 1⟩]⟩

/-- The spec's verdict scenario: lb = ub = 10 against rival ubs 9, 8, 7, 6. -/
def meStar : PerPlayer := ⟨1, "P", 10, 0, 0, 0, 0, 0, 0, 0, 0, 10, 10⟩

def rivalRow (pid : PlayerId) (l u : Int) : PerPlayer :=
  ⟨pid, "R", 0, 0, 0, 0, 0, 0, 0, 0, 0, l, u⟩

def rowsStar : List PerPlayer :=
  [meStar, rivalRow 2 5 9, rivalRow 3 4 8, rivalRow 4 3 7, rivalRow 5 2 6]

/-- Placeholder row used as the `getD` default when reading tables. -/
def blankRow : TableRow := ⟨0, "", 0, 0, 0, 0, 0, none⟩

/-- Placeholder used as the `getD` default when reading the ranked table. -/
def blankRanked : TableRow × Nat := (blankRow, 0)

/-- Three standings rows: two tied on the medal key, one below. -/
def trowsTie : List TableRow :=
  [⟨1, "a", 5, 0, 0, 0, 0, none⟩, ⟨2, "b", 5, 0, 0, 0, 0, none⟩,
   ⟨3, "c", 3, 0, 0, 0, 0, none⟩]

/-- The same medal keys as `sortTable trowsTie` under different names/ids. -/
def trowsTieRenamed : List TableRow :=
  [⟨7, "z", 5, 0, 0, 0, 0, none⟩, ⟨8, "y", 5, 0, 0, 0, 0, none⟩,
   ⟨9, "x", 3, 0, 0, 0, 0, none⟩]

/-! ### Sorting infrastructure -/

theorem perm_insertSorted (le : α → α → Bool) (a : α) (l : List α) :
    (insertSorted le a l).Perm (a :: l) := by
  induction l with
  | nil => exact List.Perm.refl _
  | cons b t ih =>
    by_cases h : le a b = true
    · simp [insertSorted, h]
    · simp only [insertSorted, h, if_neg, Bool.not_eq_true, if_false]
      exact ((ih.cons b).trans (List.Perm.swap a b t))

theorem perm_stableSort (le : α → α → Bool) (l : List α) : (stableSort le l).Perm l := by
  induction l with
  | nil => exact List.Perm.refl _
  | cons a t ih => exact (perm_insertSorted le a (stableSort le t)).trans (ih.cons a)

theorem mem_stableSort (le : α → α → Bool) (l : List α) (x : α) :
    x ∈ stableSort le l ↔ x ∈ l :=
  (perm_stableSort le l).mem_iff

theorem length_stableSort (le : α → α → Bool) (l : List α) :
    (stableSort le l).length = l.length :=
  (perm_stableSort le l).length_eq

theorem pairwise_insertSorted (le : α → α → Bool)
    (htot : ∀ a b, le a b = false → le b a = true)
    (htrans : ∀ a b c, le a b = true → le b c = true → le a c = true)
    (a : α) (l : List α) (hl : l.Pairwise (fun x y => le x y = true)) :
    (insertSorted le a l).Pairwise (fun x y => le x y = true) := by
  induction l with
  | nil => simp [insertSorted]
  | cons b t ih =>
    rw [List.pairwise_cons] at hl
    obtain ⟨hb, ht⟩ := hl
    by_cases h : le a b = true
    · simp only [insertSorted]
      rw [if_pos h, List.pairwise_cons]
      refine ⟨?_, ?_⟩
      · intro y hy
        rcases List.mem_cons.mp hy with h1 | h1
        · subst h1; exact h
        · exact htrans a b y h (hb y h1)
      · rw [List.pairwise_cons]; exact ⟨hb, ht⟩
    · have hba : le b a = true := htot a b (by simpa using h)
      simp only [insertSorted]
      rw [if_neg h, List.pairwise_cons]
      refine ⟨?_, ih ht⟩
      intro y hy
      rcases List.mem_cons.mp ((perm_insertSorted le a t).mem_iff.mp hy) with h1 | h1
      · subst h1; exact hba
      · exact hb y h1
    
theorem sorted_stableSort (le : α → α → Bool)
    (htot : ∀ a b, le a b = false → le b a = true)
    (htrans : ∀ a b c, le a b = true → le b c = true → le a c = true)
    (l : List α) : (stableSort le l).Pairwise (fun x y => le x y = true) := by
  induction l with
  | nil => simp [stableSort]
  | cons a t ih => exact pairwise_insertSorted le htot htrans a (stableSort le t) ih

theorem pairwise_insertSorted_of (le : α → α → Bool) (Q : α → α → Prop)
    (a : α) (l : List α) (hl : l.Pairwise Q) (ha : ∀ b ∈ l, Q a b)
    (hfalse : ∀ c, le a c = false → Q c a) :
    (insertSorted le a l).Pairwise Q := by
  induction l with
  | nil => simp [insertSorted]
  | cons b t ih =>
    rw [List.pairwise_cons] at hl
    obtain ⟨hb, ht⟩ := hl
    by_cases h : le a b = true
    · simp only [insertSorted]
      rw [if_pos h, List.pairwise_cons]
      refine ⟨?_, ?_⟩
      · intro y hy
        rcases List.mem_cons.mp hy with h1 | h1
        · subst h1; exact ha _ (List.mem_cons_self _ _)
        · exact ha y (List.mem_cons_of_mem b h1)
      · rw [List.pairwise_cons]; exact ⟨hb, ht⟩
    · simp only [insertSorted]
      rw [if_neg h, List.pairwise_cons]
      refine ⟨?_, ih ht (fun c hc => ha c (List.mem_cons_of_mem b hc))⟩
      intro y hy
      rcases List.mem_cons.mp ((perm_insertSorted le a t).mem_iff.mp hy) with h1 | h1
      · subst h1; exact hfalse b (by simpa using h)
      · exact hb y h1

theorem pairwise_stableSort_of (le : α → α → Bool) (Q : α → α → Prop)
    (hfalse : ∀ a c, le a c = false → Q c a)
    (l : List α) (hl : l.Pairwise Q) : (stableSort le l).Pairwise Q := by
  induction l with
  | nil => simp [stableSort]
  | cons a t ih =>
    rw [List.pairwise_cons] at hl
    obtain ⟨ha, ht⟩ := hl
    exact pairwise_insertSorted_of le Q a (stableSort le t) (ih ht)
      (fun b hb => ha b ((perm_stableSort le t).mem_iff.mp hb)) (fun c => hfalse a c)

/-! ### Comparator facts -/

theorem intGe_total (a b : Int) (h : intGe a b = false) : intGe b a = true := by
  simp only [intGe, decide_eq_false_iff_not, not_le, decide_eq_true_eq] at *
  omega

theorem intGe_trans (a b c : Int) (h1 : intGe a b = true) (h2 : intGe b c = true) :
    intGe a c = true := by
  simp only [intGe, decide_eq_true_eq] at *
  omega

theorem charListLe_total : ∀ as bs : List Char, charListLe as bs = false → charListLe bs as = true := by
  intro as
  induction as with
  | nil => intro bs h; simp [charListLe] at h
  | cons a as ih =>
    intro bs h
    cases bs with
    | nil => simp [charListLe]
    | cons b bs =>
      simp only [charListLe] at h ⊢
      by_cases hab : a.toNat < b.toNat
      · simp [hab] at h
      · by_cases hba : b.toNat < a.toNat
        · simp [hba]
        · simp only [hab, hba, if_false] at h ⊢
          exact ih bs h

theorem charListLe_trans : ∀ as bs cs : List Char, charListLe as bs = true →
    charListLe bs cs = true → charListLe as cs = true := by
  intro as
  induction as with
  | nil => intro bs cs _ _; simp [charListLe]
  | cons a as ih =>
    intro bs cs h1 h2
    cases bs with
    | nil => simp [charListLe] at h1
    | cons b bs =>
      cases cs with
      | nil => simp [charListLe] at h2
      | cons c cs =>
        simp only [charListLe] at h1 h2 ⊢
        by_cases hab : a.toNat < b.toNat
        · by_cases hbc : b.toNat < c.toNat
          · simp [show a.toNat < c.toNat by omega]
          · by_cases hcb : c.toNat < b.toNat
            · simp [hbc, hcb] at h2
            · have : b.toNat = c.toNat := by omega
              simp [show a.toNat < c.toNat by omega]
        · by_cases hba : b.toNat < a.toNat
          · simp [hab, hba] at h1
          · have hab2 : a.toNat = b.toNat := by omega
            by_cases hbc : b.toNat < c.toNat
            · simp [show a.toNat < c.toNat by omega]
            · by_cases hcb : c.toNat < b.toNat
              · simp [hbc, hcb] at h2
              · simp only [hab, hba, if_false] at h1
                simp only [hbc, hcb, if_false] at h2
                simp only [show ¬ a.toNat < c.toNat by omega, show ¬ c.toNat < a.toNat by omega,
                  if_false]
                exact ih bs cs h1 h2

theorem strLe_total (a b : String) (h : strLe a b = false) : strLe b a = true :=
  charListLe_total a.data b.data h

theorem strLe_trans (a b c : String) (h1 : strLe a b = true) (h2 : strLe b c = true) :
    strLe a c = true :=
  charListLe_trans a.data b.data c.data h1 h2

/-! ### Lexicographic key order -/

theorem keyLe_refl (a : Int × Nat × Nat × Nat) : keyLe a a = true := by
  simp [keyLe]

theorem keyLe_total (a b : Int × Nat × Nat × Nat) (h : keyLe a b = false) : keyLe b a = true := by
  obtain ⟨a1, a2, a3, a4⟩ := a
  obtain ⟨b1, b2, b3, b4⟩ := b
  simp only [keyLe] at h ⊢
  split_ifs at h ⊢ <;> simp_all <;> omega

theorem keyLe_trans (a b c : Int × Nat × Nat × Nat) (h1 : keyLe a b = true)
    (h2 : keyLe b c = true) : keyLe a c = true := by
  obtain ⟨a1, a2, a3, a4⟩ := a
  obtain ⟨b1, b2, b3, b4⟩ := b
  obtain ⟨c1, c2, c3, c4⟩ := c
  simp only [keyLe] at h1 h2 ⊢
  split_ifs at h1 h2 ⊢ <;> simp_all <;> omega

theorem keyLe_antisymm (a b : Int × Nat × Nat × Nat) (h1 : keyLe a b = true)
    (h2 : keyLe b a = true) : a = b := by
  obtain ⟨a1, a2, a3, a4⟩ := a
  obtain ⟨b1, b2, b3, b4⟩ := b
  simp only [keyLe] at h1 h2
  simp only [Prod.mk.injEq]
  split_ifs at h1 h2 <;> simp_all <;> omega

/-! ### Round-number sets -/

theorem mem_insertNew (m n : Nat) (l : List Nat) : m ∈ insertNew n l ↔ m = n ∨ m ∈ l := by
  by_cases h : n ∈ l
  · simp only [insertNew, if_pos h]
    constructor
    · exact fun hm => Or.inr hm
    · rintro (rfl | hm)
      · exact h
      · exact hm
  · simp [insertNew, if_neg h, List.mem_append, or_comm]

theorem self_mem_insertNew (n : Nat) (l : List Nat) : n ∈ insertNew n l := by
  rw [mem_insertNew]; exact Or.inl rfl

theorem mem_insertNew_of_mem (m n : Nat) (l : List Nat) (h : m ∈ l) : m ∈ insertNew n l := by
  rw [mem_insertNew]; exact Or.inr h

theorem nodup_insertNew (n : Nat) (l : List Nat) (h : l.Nodup) : (insertNew n l).Nodup := by
  by_cases hm : n ∈ l
  · simpa [insertNew, if_pos hm] using h
  · rw [insertNew, if_neg hm, List.nodup_append]
    refine ⟨h, List.nodup_singleton n, ?_⟩
    intro a ha hb
    rw [List.mem_singleton] at hb
    subst hb
    exact hm ha

theorem length_insertNew_pos (n : Nat) (l : List Nat) : 0 < (insertNew n l).length := by
  by_cases hm : n ∈ l
  · simp only [insertNew, if_pos hm]
    exact List.length_pos_of_mem hm
  · simp [insertNew, if_neg hm]

/-! ### The `Except` computations -/

@[simp] theorem exBind_ok {σ β : Type} (a : σ) (f : σ → Except String β) :
    (Except.ok a : Except String σ) >>= f = f a := rfl

@[simp] theorem exBind_error {σ β : Type} (e : String) (f : σ → Except String β) :
    (Except.error e : Except String σ) >>= f = .error e := rfl

@[simp] theorem exPure_def {σ : Type} (a : σ) : (pure a : Except String σ) = .ok a := rfl

theorem foldlM_invariant {σ β : Type} (f : σ → β → Except String σ) (P : σ → Prop)
    (hf : ∀ s b s', f s b = .ok s' → P s → P s') :
    ∀ (l : List β) (s s' : σ), l.foldlM f s = .ok s' → P s → P s' := by
  intro l
  induction l with
  | nil =>
    intro s s' h hp
    simp only [List.foldlM_nil, exPure_def, Except.ok.injEq] at h
    exact h ▸ hp
  | cons b t ih =>
    intro s s' h hp
    rw [List.foldlM_cons] at h
    cases hb : f s b with
    | error e => rw [hb] at h; simp at h
    | ok s1 =>
      rw [hb] at h
      simp only [exBind_ok] at h
      exact ih s1 s' h (hf s b s1 hb hp)

theorem mapM_ok_length {β γ : Type} (f : β → Except String γ) :
    ∀ (l : List β) (ys : List γ), l.mapM f = .ok ys → ys.length = l.length := by
  intro l
  induction l with
  | nil =>
    intro ys h
    simp only [List.mapM_nil, exPure_def, Except.ok.injEq] at h
    simp [← h]
  | cons b t ih =>
    intro ys h
    rw [List.mapM_cons] at h
    cases hb : f b with
    | error e => rw [hb] at h; simp at h
    | ok y =>
      rw [hb] at h
      simp only [exBind_ok] at h
      cases ht : t.mapM f with
      | error e => rw [ht] at h; simp at h
      | ok zs =>
        rw [ht] at h
        simp only [exBind_ok, exPure_def, Except.ok.injEq] at h
        subst h
        simp [ih zs ht]

theorem mapM_ok_mem {β γ : Type} (f : β → Except String γ) :
    ∀ (l : List β) (ys : List γ), l.mapM f = .ok ys → ∀ y ∈ ys, ∃ x ∈ l, f x = .ok y := by
  intro l
  induction l with
  | nil =>
    intro ys h y hy
    simp only [List.mapM_nil, exPure_def, Except.ok.injEq] at h
    subst h
    simp at hy
  | cons b t ih =>
    intro ys h y hy
    rw [List.mapM_cons] at h
    cases hb : f b with
    | error e => rw [hb] at h; simp at h
    | ok z =>
      rw [hb] at h
      simp only [exBind_ok] at h
      cases ht : t.mapM f with
      | error e => rw [ht] at h; simp at h
      | ok zs =>
        rw [ht] at h
        simp only [exBind_ok, exPure_def, Except.ok.injEq] at h
        subst h
        rcases List.mem_cons.mp hy with h1 | h1
        · exact ⟨b, List.mem_cons_self _ _, h1 ▸ hb⟩
        · obtain ⟨x, hx, hfx⟩ := ih zs ht y h1
          exact ⟨x, List.mem_cons_of_mem b hx, hfx⟩

theorem mapM_cons_error {β γ : Type} (f : β → Except String γ) (b : β) (t : List β) (e : String)
    (hb : f b = .error e) : (b :: t).mapM f = .error e := by
  rw [List.mapM_cons, hb]
  rfl

/-! ### Unfolding the engine's pieces -/

theorem procGame_def (st : AccState) (g : Game) :
    procGame st g =
      g.results.foldlM (procResult g.sweep (hasWinner g) g.roundNumber)
        ⟨applySave st.totals g.savePlayerId, st.played, insertNew g.roundNumber st.allRounds⟩ :=
  rfl

theorem procResult_error (sweep hw : Bool) (rn : Nat) (st : AccState) (r : GameResult)
    (hl : lookupT st.totals r.playerId = none) :
    procResult sweep hw rn st r = .error "KeyError" := by
  unfold procResult
  rw [hl]

theorem procResult_some_true (sweep : Bool) (rn : Nat) (st : AccState) (r : GameResult)
    (t : Totals) (hl : lookupT st.totals r.playerId = some t) :
    procResult sweep true rn st r =
      .ok ⟨updateT (bumpResult r sweep) st.totals r.playerId,
        fun pid => if pid = r.playerId then insertNew rn (st.played pid) else st.played pid,
        st.allRounds⟩ := by
  unfold procResult
  rw [hl]
  rfl

theorem procResult_some_false (sweep : Bool) (rn : Nat) (st : AccState) (r : GameResult)
    (t : Totals) (hl : lookupT st.totals r.playerId = some t) :
    procResult sweep false rn st r =
      .ok ⟨updateT (bumpResult r sweep) st.totals r.playerId, st.played, st.allRounds⟩ := by
  unfold procResult
  rw [hl]
  rfl

theorem procResult_ok_allRounds (sweep hw : Bool) (rn : Nat) (st : AccState) (r : GameResult)
    (st' : AccState) (h : procResult sweep hw rn st r = .ok st') :
    st'.allRounds = st.allRounds := by
  unfold procResult at h
  cases hl : lookupT st.totals r.playerId with
  | none => rw [hl] at h; simp at h
  | some t =>
    rw [hl] at h
    cases hw with
    | true =>
      rw [if_pos rfl] at h
      simp only [Except.ok.injEq] at h
      rw [← h]
    | false =>
      rw [if_neg Bool.false_ne_true] at h
      simp only [Except.ok.injEq] at h
      rw [← h]

theorem procResult_ok_played_mono (sweep hw : Bool) (rn : Nat) (st : AccState) (r : GameResult)
    (st' : AccState) (h : procResult sweep hw rn st r = .ok st') (pid : PlayerId) (x : Nat)
    (hx : x ∈ st.played pid) : x ∈ st'.played pid := by
  unfold procResult at h
  cases hl : lookupT st.totals r.playerId with
  | none => rw [hl] at h; simp at h
  | some t =>
    rw [hl] at h
    cases hw with
    | true =>
      rw [if_pos rfl] at h
      simp only [Except.ok.injEq] at h
      rw [← h]
      dsimp only
      by_cases hp : pid = r.playerId
      · rw [if_pos hp]
        exact mem_insertNew_of_mem x rn _ hx
      · rw [if_neg hp]
        exact hx
    | false =>
      rw [if_neg Bool.false_ne_true] at h
      simp only [Except.ok.injEq] at h
      rw [← h]
      exact hx

theorem procResult_false_played (sweep : Bool) (rn : Nat) (st : AccState) (r : GameResult)
    (st' : AccState) (h : procResult sweep false rn st r = .ok st') :
    st'.played = st.played := by
  unfold procResult at h
  cases hl : lookupT st.totals r.playerId with
  | none => rw [hl] at h; simp at h
  | some t =>
    rw [hl] at h
    rw [if_neg Bool.false_ne_true] at h
    simp only [Except.ok.injEq] at h
    rw [← h]

theorem procResult_true_played_self (sweep : Bool) (rn : Nat) (st : AccState) (r : GameResult)
    (st' : AccState) (h : procResult sweep true rn st r = .ok st') :
    rn ∈ st'.played r.playerId := by
  unfold procResult at h
  cases hl : lookupT st.totals r.playerId with
  | none => rw [hl] at h; simp at h
  | some t =>
    rw [hl] at h
    rw [if_pos rfl] at h
    simp only [Except.ok.injEq] at h
    rw [← h]
    dsimp only
    rw [if_pos rfl]
    exact self_mem_insertNew rn _

theorem foldResults_allRounds (sweep hw : Bool) (rn : Nat) :
    ∀ (results : List GameResult) (st st' : AccState),
      results.foldlM (procResult sweep hw rn) st = .ok st' → st'.allRounds = st.allRounds := by
  intro results
  induction results with
  | nil =>
    intro st st' h
    simp only [List.foldlM_nil, exPure_def, Except.ok.injEq] at h
    rw [← h]
  | cons r rs ih =>
    intro st st' h
    rw [List.foldlM_cons] at h
    cases hr : procResult sweep hw rn st r with
    | error e => rw [hr] at h; simp at h
    | ok st1 =>
      rw [hr] at h
      simp only [exBind_ok] at h
      rw [ih st1 st' h]
      exact procResult_ok_allRounds sweep hw rn st r st1 hr

theorem foldResults_played_mono (sweep hw : Bool) (rn : Nat) :
    ∀ (results : List GameResult) (st st' : AccState),
      results.foldlM (procResult sweep hw rn) st = .ok st' →
      ∀ (pid : PlayerId) (x : Nat), x ∈ st.played pid → x ∈ st'.played pid := by
  intro results
  induction results with
  | nil =>
    intro st st' h pid x hx
    simp only [List.foldlM_nil, exPure_def, Except.ok.injEq] at h
    rw [← h]
    exact hx
  | cons r rs ih =>
    intro st st' h pid x hx
    rw [List.foldlM_cons] at h
    cases hr : procResult sweep hw rn st r with
    | error e => rw [hr] at h; simp at h
    | ok st1 =>
      rw [hr] at h
      simp only [exBind_ok] at h
      exact ih st1 st' h pid x (procResult_ok_played_mono sweep hw rn st r st1 hr pid x hx)

theorem foldResults_true_credit (sweep : Bool) (rn : Nat) :
    ∀ (results : List GameResult) (st st' : AccState),
      results.foldlM (procResult sweep true rn) st = .ok st' →
      ∀ r ∈ results, rn ∈ st'.played r.playerId := by
  intro results
  induction results with
  | nil => intro st st' _ r hr; simp at hr
  | cons r rs ih =>
    intro st st' h q hq
    rw [List.foldlM_cons] at h
    cases hr : procResult sweep true rn st r with
    | error e => rw [hr] at h; simp at h
    | ok st1 =>
      rw [hr] at h
      simp only [exBind_ok] at h
      rcases List.mem_cons.mp hq with h1 | h1
      · subst h1
        exact foldResults_played_mono sweep true rn rs st1 st' h q.playerId rn
          (procResult_true_played_self sweep rn st q st1 hr)
      · exact ih st1 st' h q h1

theorem foldResults_false_played (sweep : Bool) (rn : Nat) :
    ∀ (results : List GameResult) (st st' : AccState),
      results.foldlM (procResult sweep false rn) st = .ok st' → st'.played = st.played := by
  intro results
  induction results with
  | nil =>
    intro st st' h
    simp only [List.foldlM_nil, exPure_def, Except.ok.injEq] at h
    rw [← h]
  | cons r rs ih =>
    intro st st' h
    rw [List.foldlM_cons] at h
    cases hr : procResult sweep false rn st r with
    | error e => rw [hr] at h; simp at h
    | ok st1 =>
      rw [hr] at h
      simp only [exBind_ok] at h
      rw [ih st1 st' h]
      exact procResult_false_played sweep rn st r st1 hr

theorem procGame_ok_allRounds (st : AccState) (g : Game) (st' : AccState)
    (h : procGame st g = .ok st') :
    st'.allRounds = insertNew g.roundNumber st.allRounds := by
  rw [procGame_def] at h
  exact foldResults_allRounds _ _ _ _ _ _ h

theorem foldGames_allRounds_mem :
    ∀ (games : List Game) (st st' : AccState), games.foldlM procGame st = .ok st' →
      ∀ n : Nat, n ∈ st'.allRounds ↔
        n ∈ st.allRounds ∨ games.any (fun g => decide (g.roundNumber = n)) = true := by
  intro games
  induction games with
  | nil =>
    intro st st' h n
    simp only [List.foldlM_nil, exPure_def, Except.ok.injEq] at h
    subst h
    simp
  | cons g gs ih =>
    intro st st' h n
    rw [List.foldlM_cons] at h
    cases hg : procGame st g with
    | error e => rw [hg] at h; simp at h
    | ok st1 =>
      rw [hg] at h
      simp only [exBind_ok] at h
      rw [ih st1 st' h n, procGame_ok_allRounds st g st1 hg, mem_insertNew, List.any_cons]
      simp only [Bool.or_eq_true, decide_eq_true_eq]
      tauto

theorem procResult_played_nodup (sweep hw : Bool) (rn : Nat) (st : AccState) (r : GameResult)
    (st' : AccState) (h : procResult sweep hw rn st r = .ok st')
    (hn : ∀ pid, (st.played pid).Nodup) : ∀ pid, (st'.played pid).Nodup := by
  unfold procResult at h
  cases hl : lookupT st.totals r.playerId with
  | none => rw [hl] at h; simp at h
  | some t =>
    rw [hl] at h
    cases hw with
    | true =>
      rw [if_pos rfl] at h
      simp only [Except.ok.injEq] at h
      rw [← h]
      intro pid
      dsimp only
      by_cases hp : pid = r.playerId
      · rw [if_pos hp]
        exact nodup_insertNew rn _ (hn pid)
      · rw [if_neg hp]
        exact hn pid
    | false =>
      rw [if_neg Bool.false_ne_true] at h
      simp only [Except.ok.injEq] at h
      rw [← h]
      exact hn

theorem procGame_played_nodup (st : AccState) (g : Game) (st' : AccState)
    (h : procGame st g = .ok st') (hn : ∀ pid, (st.played pid).Nodup) :
    ∀ pid, (st'.played pid).Nodup := by
  rw [procGame_def] at h
  exact foldlM_invariant _ (fun st0 => ∀ pid, (st0.played pid).Nodup)
    (fun _ _ _ hb hp => procResult_played_nodup _ _ _ _ _ _ hb hp) g.results _ st' h hn

theorem foldGames_played_nodup (games : List Game) (st st' : AccState)
    (h : games.foldlM procGame st = .ok st') (hn : ∀ pid, (st.played pid).Nodup) :
    ∀ pid, (st'.played pid).Nodup :=
  foldlM_invariant _ (fun st0 => ∀ pid, (st0.played pid).Nodup)
    (fun _ _ _ hb hp => procGame_played_nodup _ _ _ hb hp) games st st' h hn

theorem procGame_allRounds_nodup (st : AccState) (g : Game) (st' : AccState)
    (h : procGame st g = .ok st') (hn : st.allRounds.Nodup) : st'.allRounds.Nodup := by
  rw [procGame_ok_allRounds st g st' h]
  exact nodup_insertNew _ _ hn

theorem foldGames_allRounds_nodup (games : List Game) (st st' : AccState)
    (h : games.foldlM procGame st = .ok st') (hn : st.allRounds.Nodup) : st'.allRounds.Nodup :=
  foldlM_invariant _ (fun st0 => st0.allRounds.Nodup)
    (fun _ _ _ hb hp => procGame_allRounds_nodup _ _ _ hb hp) games st st' h hn

theorem mem_foldl_insertNew (rounds : List RoundInfo) :
    ∀ (acc : List Nat) (n : Nat),
      n ∈ rounds.foldl (fun acc ri => insertNew ri.number acc) acc ↔
      n ∈ acc ∨ rounds.any (fun ri => decide (ri.number = n)) = true := by
  induction rounds with
  | nil => intro acc n; simp
  | cons ri rs ih =>
    intro acc n
    rw [List.foldl_cons, ih, mem_insertNew, List.any_cons]
    simp only [Bool.or_eq_true, decide_eq_true_eq]
    constructor
    · rintro ((h | h) | h)
      · exact Or.inr (Or.inl h.symm)
      · exact Or.inl h
      · exact Or.inr (Or.inr h)
    · rintro (h | h | h)
      · exact Or.inl (Or.inr h)
      · exact Or.inl (Or.inl h.symm)
      · exact Or.inr h

theorem mem_allRoundsInit (rounds : List RoundInfo) (n : Nat) :
    n ∈ allRoundsInit rounds ↔ rounds.any (fun ri => decide (ri.number = n)) = true := by
  rw [allRoundsInit, mem_foldl_insertNew]
  simp

theorem nodup_foldl_insertNew (rounds : List RoundInfo) :
    ∀ acc : List Nat, acc.Nodup →
      (rounds.foldl (fun acc ri => insertNew ri.number acc) acc).Nodup := by
  induction rounds with
  | nil => intro acc h; simpa using h
  | cons ri rs ih =>
    intro acc h
    rw [List.foldl_cons]
    exact ih _ (nodup_insertNew _ _ h)

theorem nodup_allRoundsInit (rounds : List RoundInfo) : (allRoundsInit rounds).Nodup :=
  nodup_foldl_insertNew rounds [] List.nodup_nil

theorem containsT_initTotals (players : List Player) (pid : PlayerId) :
    containsT (initTotals players) pid = players.any (fun p => decide (p.id = pid)) := by
  induction players with
  | nil => rfl
  | cons p ps ih =>
    simp only [initTotals, List.map_cons, containsT, lookupT, List.any_cons]
    by_cases hp : p.id = pid
    · rw [if_pos hp]
      simp [hp]
    · rw [if_neg hp]
      simp only [hp, decide_False, Bool.false_or]
      exact ih

theorem mkPerPlayer_none (tr : Nat) (st : AccState) (rests : PlayerId → Nat) (p : Player)
    (hl : lookupT st.totals p.id = none) :
    mkPerPlayer tr st rests p = .error "KeyError" := by
  unfold mkPerPlayer
  rw [hl]

theorem mkPerPlayer_some (tr : Nat) (st : AccState) (rests : PlayerId → Nat) (p : Player)
    (t : Totals) (hl : lookupT st.totals p.id = some t) :
    mkPerPlayer tr st rests p =
      .ok ⟨p.id, t.name, t.points, t.wins, t.seconds, t.thirds, t.saves,
        (st.played p.id).length, rests p.id,
        max ((tr : Int) - (rests p.id : Int)) 0,
        max (max ((tr : Int) - (rests p.id : Int)) 0 - ((st.played p.id).length : Int)) 0,
        t.points,
        t.points +
          4 * max (max ((tr : Int) - (rests p.id : Int)) 0 - ((st.played p.id).length : Int)) 0⟩ := by
  unfold mkPerPlayer
  rw [hl]

theorem length_rivalLBs (rows : List PerPlayer) (me : PerPlayer) :
    (rivalLBs rows me).length = (rivalsOf rows me).length := by
  rw [rivalLBs, length_stableSort, List.length_map]

theorem length_rivalUBs (rows : List PerPlayer) (me : PerPlayer) :
    (rivalUBs rows me).length = (rivalsOf rows me).length := by
  rw [rivalUBs, length_stableSort, List.length_map]

theorem verdictFor_ok (rows : List PerPlayer) (me : PerPlayer) (l4 u4 : Int)
    (hl : (rivalLBs rows me)[3]? = some l4) (hu : (rivalUBs rows me)[3]? = some u4) :
    verdictFor rows me =
      .ok (if u4 < me.lb then some "CLASIFICADO"
           else if me.ub < l4 then some "ELIMINADO"
           else none) := by
  unfold verdictFor
  rw [hl, hu]

theorem verdictFor_short (rows : List PerPlayer) (me : PerPlayer)
    (h : (rivalsOf rows me).length < 4) :
    verdictFor rows me = .error "list index out of range" := by
  have hl : (rivalLBs rows me)[3]? = none := by
    apply List.getElem?_eq_none
    rw [length_rivalLBs]
    omega
  have hu : (rivalUBs rows me)[3]? = none := by
    apply List.getElem?_eq_none
    rw [length_rivalUBs]
    omega
  unfold verdictFor
  rw [hl, hu]

theorem applySave_skip (totals : List (PlayerId × Totals)) (pid : PlayerId)
    (h : pid = 0 ∨ lookupT totals pid = none) : applySave totals (some pid) = totals := by
  rcases h with rfl | h
  · simp [applySave]
  · simp [applySave, containsT, h]

theorem applySave_hit (totals : List (PlayerId × Totals)) (pid : PlayerId)
    (h1 : pid ≠ 0) (h2 : containsT totals pid = true) :
    applySave totals (some pid) =
      updateT (fun t => { t with points := t.points + 1, saves := t.saves + 1 }) totals pid := by
  simp [applySave, h1, h2]

theorem index_def (s : Store) :
    index s = accumulate s >>= fun st => perPlayerRows st s >>= fun rows =>
      addVerdicts rows >>= fun withStatus =>
        .ok ⟨rankTable (sortTable (withStatus.map mkTableRow)),
          stableSort (fun a b => strLe a.name b.name) (rows.map mkParticipation),
          st.allRounds.length⟩ :=
  rfl

/-! ### The competition-ranking pass -/

theorem assignPos_cons (t : TableRow) (ts : List TableRow)
    (lk : Option (Int × Nat × Nat × Nat)) (cp i : Nat) :
    assignPos (t :: ts) lk cp i =
      (t, if some (tupleKey t) = lk then cp else i) ::
        assignPos ts (some (tupleKey t)) (if some (tupleKey t) = lk then cp else i) (i + 1) :=
  rfl

theorem assignPos_length :
    ∀ (l : List TableRow) (lk : Option (Int × Nat × Nat × Nat)) (cp i : Nat),
      (assignPos l lk cp i).length = l.length := by
  intro l
  induction l with
  | nil => intro lk cp i; rfl
  | cons t ts ih =>
    intro lk cp i
    rw [assignPos_cons, List.length_cons, List.length_cons, ih]

theorem assignPos_map_fst :
    ∀ (l : List TableRow) (lk : Option (Int × Nat × Nat × Nat)) (cp i : Nat),
      (assignPos l lk cp i).map Prod.fst = l := by
  intro l
  induction l with
  | nil => intro lk cp i; rfl
  | cons t ts ih =>
    intro lk cp i
    rw [assignPos_cons, List.map_cons, ih]

theorem assignPos_getD_zero (t : TableRow) (ts : List TableRow)
    (lk : Option (Int × Nat × Nat × Nat)) (cp i : Nat) :
    (assignPos (t :: ts) lk cp i).getD 0 blankRanked =
      (t, if some (tupleKey t) = lk then cp else i) := by
  rw [assignPos_cons, List.getD_cons_zero]

theorem assignPos_getD_succ :
    ∀ (l : List TableRow) (lk : Option (Int × Nat × Nat × Nat)) (cp i k : Nat),
      k + 1 < (assignPos l lk cp i).length →
      ((assignPos l lk cp i).getD (k + 1) blankRanked).2 =
        if tupleKey ((assignPos l lk cp i).getD (k + 1) blankRanked).1 =
            tupleKey ((assignPos l lk cp i).getD k blankRanked).1
        then ((assignPos l lk cp i).getD k blankRanked).2
        else i + k + 1 := by
  intro l
  induction l with
  | nil =>
    intro lk cp i k h
    simp [assignPos] at h
  | cons t ts ih =>
    intro lk cp i k h
    cases k with
    | zero =>
      cases ts with
      | nil =>
        rw [assignPos_cons] at h
        simp [assignPos] at h
      | cons u us =>
        rw [assignPos_cons, List.getD_cons_succ, List.getD_cons_zero, assignPos_cons,
          List.getD_cons_zero]
        simp only [Option.some.injEq]
    | succ k =>
      rw [assignPos_cons] at h
      rw [List.length_cons] at h
      rw [assignPos_cons, List.getD_cons_succ, List.getD_cons_succ,
        ih (some (tupleKey t)) (if some (tupleKey t) = lk then cp else i) (i + 1) k
          (by omega)]
      have harith : i + 1 + k + 1 = i + (k + 1) + 1 := by omega
      rw [harith]

theorem rankTable_length (l : List TableRow) : (rankTable l).length = l.length :=
  assignPos_length l none 0 1

theorem rankTable_map_fst (l : List TableRow) : (rankTable l).map Prod.fst = l :=
  assignPos_map_fst l none 0 1

theorem rankTable_fst (l : List TableRow) (m : Nat) (hm : m < l.length) :
    ((rankTable l).getD m blankRanked).1 = l.getD m blankRow := by
  have hm2 : m < (rankTable l).length := by rw [rankTable_length]; exact hm
  have hm3 : m < ((rankTable l).map Prod.fst).length := by rw [List.length_map]; exact hm2
  conv_rhs => rw [← rankTable_map_fst l]
  rw [List.getD_eq_getElem _ _ hm2, List.getD_eq_getElem _ _ hm3, List.getElem_map]

theorem rankTable_getD_zero (t : TableRow) (ts : List TableRow) :
    ((rankTable (t :: ts)).getD 0 blankRanked).2 = 1 := by
  rw [rankTable, assignPos_getD_zero]
  simp

theorem rankTable_getD_succ (l : List TableRow) (k : Nat)
    (h : k + 1 < (rankTable l).length) :
    ((rankTable l).getD (k + 1) blankRanked).2 =
      if tupleKey ((rankTable l).getD (k + 1) blankRanked).1 =
          tupleKey ((rankTable l).getD k blankRanked).1
      then ((rankTable l).getD k blankRanked).2
      else k + 2 := by
  rw [rankTable] at h ⊢
  rw [assignPos_getD_succ l none 0 1 k h]
  have harith : 1 + k + 1 = k + 2 := by omega
  rw [harith]

theorem assignPos_snd_keydet :
    ∀ (l l2 : List TableRow) (lk : Option (Int × Nat × Nat × Nat)) (cp i : Nat),
      l.map tupleKey = l2.map tupleKey →
      (assignPos l lk cp i).map (fun x => x.2) = (assignPos l2 lk cp i).map (fun x => x.2) := by
  intro l
  induction l with
  | nil =>
    intro l2 lk cp i h
    cases l2 with
    | nil => rfl
    | cons u us => simp at h
  | cons t ts ih =>
    intro l2 lk cp i h
    cases l2 with
    | nil => simp at h
    | cons u us =>
      simp only [List.map_cons, List.cons.injEq] at h
      obtain ⟨h1, h2⟩ := h
      rw [assignPos_cons, assignPos_cons, List.map_cons, List.map_cons, h1,
        ih us (some (tupleKey u)) (if some (tupleKey u) = lk then cp else i) (i + 1) h2]

/-! ### The claims -/

/-- C7: the scoring rule is a total function: a null position scores 0 for
any sweep flag; under a sweep position 1 scores 3 and every other position
scores 0; otherwise positions 1, 2, 3 score 3, 2, 1 and any other value
scores 0. -/
theorem C7_scoring_rule (p : Int) (s : Bool) :
    points_for_position none s = 0 ∧
    points_for_position (some p) true = (if p = 1 then 3 else 0) ∧
    points_for_position (some p) false =
      (if p = 1 then 3 else if p = 2 then 2 else if p = 3 then 1 else 0) :=
  ⟨rfl, rfl, rfl⟩

/-- C9: verdict exclusivity — no row of the computed standings table is
labelled both CLASIFICADO and ELIMINADO. -/
theorem C9_verdict_exclusive (s : Store) (out : Output) (_h : index s = .ok out)
    (row : TableRow × Nat) (_hmem : row ∈ out.table) :
    ¬(row.1.status = some "CLASIFICADO" ∧ row.1.status = some "ELIMINADO") := by
  rintro ⟨h1, h2⟩
  rw [h1] at h2
  simp at h2

/-- C9 witness: exclusivity of the first row that `index` computes on the
five-player store. -/
theorem C9_verdict_exclusive_witness :
    ¬((tableRowZero 1 "A", 1).1.status = some "CLASIFICADO" ∧
      (tableRowZero 1 "A", 1).1.status = some "ELIMINADO") :=
  C9_verdict_exclusive storeFive outFive rfl (tableRowZero 1 "A", 1) (by decide)

/-- C8: bounds monotonicity — every row of the computed `per_player` table
satisfies lb ≤ points ≤ ub, and so ub ≥ lb. -/
theorem C8_bounds_monotonicity (st : AccState) (s : Store) (rows : List PerPlayer)
    (hrows : perPlayerRows st s = .ok rows) (row : PerPlayer) (hmem : row ∈ rows) :
    row.lb ≤ row.points ∧ row.points ≤ row.ub ∧ row.lb ≤ row.ub := by
  obtain ⟨p, _hp, hmk⟩ := mapM_ok_mem _ _ rows hrows row hmem
  cases hl : lookupT st.totals p.id with
  | none => rw [mkPerPlayer_none _ _ _ _ hl] at hmk; simp at hmk
  | some t =>
    rw [mkPerPlayer_some _ _ _ _ t hl] at hmk
    simp only [Except.ok.injEq] at hmk
    subst hmk
    have h0 : (0 : Int) ≤ max (max ((st.allRounds.length : Int) -
        (restsByPlayer s.rounds p.id : Int)) 0 - ((st.played p.id).length : Int)) 0 :=
      le_max_right _ _
    refine ⟨le_refl _, ?_, ?_⟩ <;> dsimp only <;> linarith

/-- C8 witness: the bounds inequalities for player A of `storeBye`. -/
theorem C8_bounds_monotonicity_witness :
    rowBye.lb ≤ rowBye.points ∧ rowBye.points ≤ rowBye.ub ∧ rowBye.lb ≤ rowBye.ub :=
  C8_bounds_monotonicity stBye storeBye [rowBye] rfl rowBye (by decide)

/-- C5: on `storeGhost`, where the inactive player Bob still owns a stored
game result, the standings computation raises KeyError at
`totals[r.player_id]` instead of completing with rows for the active
players only. -/
theorem C5_inactive_result_fails : index storeGhost = .error "KeyError" := rfl

/-- C2 counterexample: `storeOne` has fewer than 5 active players, yet the
standings computation fails (rival list index out of range) instead of
completing with every player unlabelled. -/
theorem C2_counterexample : index storeOne = .error "list index out of range" := rfl

/-- C2 (amended): with at least one and fewer than five active players the
standings computation never completes: the verdict stage indexes the 4th
entry of a rival list of length at most 3 (or an earlier lookup already
failed), so `index` returns an error. -/
theorem C2_fewer_than_five_fails (s : Store) (h1 : 1 ≤ (activePlayers s).length)
    (h5 : (activePlayers s).length < 5) : isErr (index s) = true := by
  rw [index_def]
  cases hacc : accumulate s with
  | error e => rfl
  | ok st =>
    simp only [exBind_ok]
    cases hrows : perPlayerRows st s with
    | error e => rfl
    | ok rows =>
      simp only [exBind_ok]
      have hlen : rows.length = (activePlayers s).length := mapM_ok_length _ _ rows hrows
      cases rows with
      | nil =>
        rw [List.length_nil] at hlen
        omega
      | cons me rest =>
        have hrest : (me :: rest).length = rest.length + 1 := by simp
        have hshort : (rivalsOf (me :: rest) me).length < 4 := by
          have hfil : rivalsOf (me :: rest) me =
              List.filter (fun q => decide (q.id ≠ me.id)) rest := by
            rw [rivalsOf, List.filter_cons]
            simp
          rw [hfil]
          have := List.length_filter_le (fun q => decide (q.id ≠ me.id)) rest
          omega
        have hf : (verdictFor (me :: rest) me).map (fun v => (me, v)) =
            .error "list index out of range" := by
          rw [verdictFor_short _ _ hshort]
          rfl
        have hv : addVerdicts (me :: rest) = .error "list index out of range" :=
          mapM_cons_error _ me rest _ hf
        rw [hv]
        rfl

/-- C2 witness: the amended claim evaluated at the one-player store. -/
theorem C2_fewer_than_five_fails_witness : isErr (index storeOne) = true :=
  C2_fewer_than_five_fails storeOne (by decide) (by decide)

/-- C10: the save bonus (+1 point and +1 save counter) is applied only when
the designated save player is a key of `totals`, i.e. an active player:
with an inactive or unknown save player the table is processed exactly as
if no save player were designated, with an active one processing equals
crediting the bonus first and then processing without the designation, and
the keys of the initial `totals` are exactly the active players. -/
theorem C10_save_bonus_active_only (st : AccState) (g : Game) :
    (∀ pid : PlayerId, g.savePlayerId = some pid →
      pid = 0 ∨ lookupT st.totals pid = none →
      procGame st g = procGame st { g with savePlayerId := none }) ∧
    (∀ pid : PlayerId, g.savePlayerId = some pid → pid ≠ 0 →
      containsT st.totals pid = true →
      procGame st g =
        procGame
          { st with totals :=
              (updateT (fun t => { t with points := t.points + 1, saves := t.saves + 1 })
                st.totals pid) }
          { g with savePlayerId := none }) ∧
    (∀ (s : Store) (pid : PlayerId),
      containsT (initTotals (activePlayers s)) pid =
        (activePlayers s).any (fun p => decide (p.id = pid))) := by
  refine ⟨?_, ?_, fun s pid => containsT_initTotals _ pid⟩
  · intro pid hpid hskip
    rw [procGame_def, procGame_def, hpid, applySave_skip _ _ hskip]
    rfl
  · intro pid hpid h1 h2
    rw [procGame_def, procGame_def, hpid, applySave_hit _ _ h1 h2]
    rfl

/-- C10 witness: the three parts evaluated at concrete tables: an absent
save player, an active one, and the initial totals of the five-player
store. -/
theorem C10_save_bonus_active_only_witness :
    procGame stA gSaveGhost = procGame stA { gSaveGhost with savePlayerId := none } ∧
    procGame stA gSaveActive =
      procGame
        { stA with totals :=
            (updateT (fun t => { t with points := t.points + 1, saves := t.saves + 1 })
              stA.totals 1) }
        { gSaveActive with savePlayerId := none } ∧
    containsT (initTotals (activePlayers storeFive)) 3 =
      (activePlayers storeFive).any (fun p => decide (p.id = 3)) :=
  ⟨(C10_save_bonus_active_only stA gSaveGhost).1 2 rfl (Or.inr rfl),
   (C10_save_bonus_active_only stA gSaveActive).2.1 1 rfl (by decide) rfl,
   (C10_save_bonus_active_only stA gSaveActive).2.2 storeFive 3⟩

/-- C3: a table counts as played exactly when some result holds position 1
or the sweep flag is set; every participant of a played table (whatever
their own position, including none) has the table's round added to their
played-round set, and an unplayed table changes no played-round set. -/
theorem C3_participation_rule (st st' : AccState) (g : Game)
    (h : procGame st g = .ok st') :
    (hasWinner g = true ↔ (∃ r ∈ g.results, r.position = some 1) ∨ g.sweep = true) ∧
    (hasWinner g = true → ∀ r ∈ g.results, g.roundNumber ∈ st'.played r.playerId) ∧
    (hasWinner g = false → st'.played = st.played) := by
  refine ⟨?_, ?_, ?_⟩
  · simp [hasWinner, List.any_eq_true]
  · intro hw r hr
    rw [procGame_def, hw] at h
    exact foldResults_true_credit g.sweep g.roundNumber g.results _ st' h r hr
  · intro hw
    rw [procGame_def, hw] at h
    exact foldResults_false_played g.sweep g.roundNumber g.results
      ⟨applySave st.totals g.savePlayerId, st.played, insertNew g.roundNumber st.allRounds⟩
      st' h

/-- C3 witness: the participation rule evaluated at a resolved and at an
unresolved concrete table. -/
theorem C3_participation_rule_witness :
    ((∃ r ∈ gWin.results, r.position = some 1) ∨ gWin.sweep = true) ∧
    gWin.roundNumber ∈ stAWin.played 1 ∧
    stANoWin.played = stA.played :=
  ⟨(C3_participation_rule stA stAWin gWin rfl).1.mp rfl,
   (C3_participation_rule stA stAWin gWin rfl).2.1 rfl ⟨1, some 1⟩ (by decide),
   (C3_participation_rule stA stANoWin gNoWin rfl).2.2 rfl⟩

/-- C1: with at least 4 rivals, the verdict is computed from the 4th entries
(index 3) of the rivals' upper and lower bounds sorted descending (each a
permutation of the rivals' bounds, pairwise non-increasing): CLASIFICADO
exactly when lb exceeds the 4th-best rival ub, else ELIMINADO exactly when
ub is below the 4th-best rival lb, else no label. -/
theorem C1_verdict_assignment (rows : List PerPlayer) (me : PerPlayer)
    (h : 4 ≤ (rivalsOf rows me).length) :
    (rivalUBs rows me).Perm ((rivalsOf rows me).map (fun q => q.ub)) ∧
    (rivalUBs rows me).Pairwise (fun a b : Int => b ≤ a) ∧
    (rivalLBs rows me).Perm ((rivalsOf rows me).map (fun q => q.lb)) ∧
    (rivalLBs rows me).Pairwise (fun a b : Int => b ≤ a) ∧
    verdictFor rows me =
      .ok (if (rivalUBs rows me).getD 3 0 < me.lb then some "CLASIFICADO"
           else if me.ub < (rivalLBs rows me).getD 3 0 then some "ELIMINADO"
           else none) := by
  have hlu : 3 < (rivalUBs rows me).length := by rw [length_rivalUBs]; omega
  have hll : 3 < (rivalLBs rows me).length := by rw [length_rivalLBs]; omega
  refine ⟨perm_stableSort _ _, ?_, perm_stableSort _ _, ?_, ?_⟩
  · exact (sorted_stableSort intGe intGe_total intGe_trans _).imp
      (fun hab => by simpa [intGe] using hab)
  · exact (sorted_stableSort intGe intGe_total intGe_trans _).imp
      (fun hab => by simpa [intGe] using hab)
  · have hgl : (rivalLBs rows me)[3]? = some ((rivalLBs rows me).getD 3 0) := by
      rw [List.getD_eq_getElem _ _ hll]
      exact List.getElem?_eq_getElem hll
    have hgu : (rivalUBs rows me)[3]? = some ((rivalUBs rows me).getD 3 0) := by
      rw [List.getD_eq_getElem _ _ hlu]
      exact List.getElem?_eq_getElem hlu
    exact verdictFor_ok rows me _ _ hgl hgu

/-- C1 witness: the spec's scenario — lb = ub = 10 against rival ubs
9, 8, 7, 6 — yields CLASIFICADO. -/
theorem C1_verdict_assignment_witness :
    (rivalUBs rowsStar meStar).Perm ((rivalsOf rowsStar meStar).map (fun q => q.ub)) ∧
    (rivalUBs rowsStar meStar).Pairwise (fun a b : Int => b ≤ a) ∧
    (rivalLBs rowsStar meStar).Perm ((rivalsOf rowsStar meStar).map (fun q => q.lb)) ∧
    (rivalLBs rowsStar meStar).Pairwise (fun a b : Int => b ≤ a) ∧
    verdictFor rowsStar meStar =
      .ok (if (rivalUBs rowsStar meStar).getD 3 0 < meStar.lb then some "CLASIFICADO"
           else if meStar.ub < (rivalLBs rowsStar meStar).getD 3 0 then some "ELIMINADO"
           else none) :=
  C1_verdict_assignment rowsStar meStar (by decide)

theorem any_sortedGames (s : Store) (p : Game → Bool) :
    ((sortedGames s).any p = true) ↔ (s.games.any p = true) := by
  rw [List.any_eq_true, List.any_eq_true]
  constructor
  · rintro ⟨g, hg, hp⟩
    exact ⟨g, (mem_stableSort _ _ g).mp hg, hp⟩
  · rintro ⟨g, hg, hp⟩
    exact ⟨g, (mem_stableSort _ _ g).mpr hg, hp⟩

/-- C4: the bounds formulas: rests counts the rounds designating the player
as bye, planned_to_play = max(total_rounds − rests, 0), played is the size
of the duplicate-free set of credited rounds, remaining =
max(planned_to_play − played, 0), lb is the player's current points,
ub = lb + 4·remaining, and the round set whose size is total_rounds holds
exactly the distinct round numbers appearing in either the round records or
the tables. -/
theorem C4_bounds_formulas (s : Store) (st : AccState) (p : Player) (row : PerPlayer)
    (hacc : accumulate s = .ok st)
    (hmk : mkPerPlayer st.allRounds.length st (restsByPlayer s.rounds) p = .ok row)
    (hid : p.id ≠ 0) :
    row.rests = s.rounds.countP (fun ri => decide (ri.byePlayerId = some p.id)) ∧
    row.planned_to_play = max ((st.allRounds.length : Int) - (row.rests : Int)) 0 ∧
    row.played = (st.played p.id).length ∧
    (st.played p.id).Nodup ∧
    row.remaining = max (row.planned_to_play - (row.played : Int)) 0 ∧
    row.lb = row.points ∧
    row.ub = row.lb + 4 * row.remaining ∧
    st.allRounds.Nodup ∧
    (∀ n : Nat, n ∈ st.allRounds ↔
      (s.rounds.any (fun ri => decide (ri.number = n)) ||
       s.games.any (fun g => decide (g.roundNumber = n))) = true) := by
  have hrests : restsByPlayer s.rounds p.id =
      s.rounds.countP (fun ri => decide (ri.byePlayerId = some p.id)) := by
    apply List.countP_congr
    intro ri _
    simp only [Bool.and_eq_true, decide_eq_true_eq]
    constructor
    · rintro ⟨_, h2⟩
      exact h2
    · intro h2
      refine ⟨?_, h2⟩
      rw [h2]
      simp [idTruthy, hid]
  have hplayedN : ∀ pid, (st.played pid).Nodup :=
    foldGames_played_nodup (sortedGames s)
      ⟨initTotals (activePlayers s), fun _ => [], allRoundsInit s.rounds⟩ st hacc
      (fun _ => List.nodup_nil)
  have hallN : st.allRounds.Nodup :=
    foldGames_allRounds_nodup (sortedGames s)
      ⟨initTotals (activePlayers s), fun _ => [], allRoundsInit s.rounds⟩ st hacc
      (nodup_allRoundsInit s.rounds)
  have hmem : ∀ n : Nat, n ∈ st.allRounds ↔
      (s.rounds.any (fun ri => decide (ri.number = n)) ||
       s.games.any (fun g => decide (g.roundNumber = n))) = true := by
    intro n
    have h1 := foldGames_allRounds_mem (sortedGames s)
      ⟨initTotals (activePlayers s), fun _ => [], allRoundsInit s.rounds⟩ st hacc n
    rw [h1, Bool.or_eq_true]
    constructor
    · rintro (hm | hany)
      · exact Or.inl ((mem_allRoundsInit s.rounds n).mp hm)
      · exact Or.inr ((any_sortedGames s _).mp hany)
    · rintro (hm | hany)
      · exact Or.inl ((mem_allRoundsInit s.rounds n).mpr hm)
      · exact Or.inr ((any_sortedGames s _).mpr hany)
  cases hl : lookupT st.totals p.id with
  | none => rw [mkPerPlayer_none _ _ _ _ hl] at hmk; simp at hmk
  | some t =>
    rw [mkPerPlayer_some _ _ _ _ t hl] at hmk
    simp only [Except.ok.injEq] at hmk
    subst hmk
    exact ⟨hrests, rfl, rfl, hplayedN p.id, rfl, rfl, rfl, hallN, hmem⟩

/-- C4 witness: the formulas evaluated for player A of `storeBye`. -/
theorem C4_bounds_formulas_witness :
    rowBye.rests = storeBye.rounds.countP (fun ri => decide (ri.byePlayerId = some 1)) ∧
    rowBye.ub = rowBye.lb + 4 * rowBye.remaining ∧
    ((1 : Nat) ∈ stBye.allRounds ↔
      (storeBye.rounds.any (fun ri => decide (ri.number = 1)) ||
       storeBye.games.any (fun g => decide (g.roundNumber = 1))) = true) :=
  ⟨(C4_bounds_formulas storeBye stBye ⟨1, "A", true⟩ rowBye rfl rfl (by decide)).1,
   (C4_bounds_formulas storeBye stBye ⟨1, "A", true⟩ rowBye rfl rfl (by decide)).2.2.2.2.2.2.1,
   (C4_bounds_formulas storeBye stBye ⟨1, "A", true⟩ rowBye rfl rfl (by decide)).2.2.2.2.2.2.2.2 1⟩

theorem sortTable_sorted_key (rows : List TableRow) :
    (sortTable rows).Pairwise (fun a b => keyLe (tupleKey b) (tupleKey a) = true) := by
  have h := sorted_stableSort (fun a b : TableRow => keyLe (tupleKey b) (tupleKey a))
    (fun a b hf => keyLe_total (tupleKey b) (tupleKey a) hf)
    (fun a b c h1 h2 => keyLe_trans (tupleKey c) (tupleKey b) (tupleKey a) h2 h1)
    (stableSort (fun a b => strLe a.name b.name) rows)
  exact h

theorem sortTable_sorted_name (rows : List TableRow) :
    (sortTable rows).Pairwise
      (fun a b => tupleKey a = tupleKey b → strLe a.name b.name = true) := by
  apply pairwise_stableSort_of
  · intro a c hf hkey
    rw [hkey, keyLe_refl] at hf
    simp at hf
  · have h := sorted_stableSort (fun a b : TableRow => strLe a.name b.name)
      (fun a b hf => strLe_total a.name b.name hf)
      (fun a b c h1 h2 => strLe_trans a.name b.name c.name h1 h2) rows
    refine List.Pairwise.imp ?_ h
    intro a b hab _
    exact hab

theorem getD_get_row (l : List TableRow) (m : Nat) (h : m < l.length) :
    l.getD m blankRow = l.get ⟨m, h⟩ := by
  rw [List.getD_eq_getElem _ _ h, List.get_eq_getElem]

theorem pairwise_getD_key (l : List TableRow)
    (hsort : l.Pairwise (fun a b => keyLe (tupleKey b) (tupleKey a) = true))
    (a b : Nat) (hab : a < b) (hb : b < l.length) :
    keyLe (tupleKey (l.getD b blankRow)) (tupleKey (l.getD a blankRow)) = true := by
  have ha : a < l.length := by omega
  rw [getD_get_row l a ha, getD_get_row l b hb]
  exact List.pairwise_iff_get.mp hsort ⟨a, ha⟩ ⟨b, hb⟩ hab

theorem key_between (l : List TableRow)
    (hsort : l.Pairwise (fun a b => keyLe (tupleKey b) (tupleKey a) = true))
    (i j m : Nat) (him : i ≤ m) (hmj : m ≤ j) (hj : j < l.length)
    (hk : tupleKey (l.getD i blankRow) = tupleKey (l.getD j blankRow)) :
    tupleKey (l.getD m blankRow) = tupleKey (l.getD i blankRow) := by
  rcases Nat.eq_or_lt_of_le him with heq | hlt1
  · rw [← heq]
  · rcases Nat.eq_or_lt_of_le hmj with heq2 | hlt2
    · rw [heq2]
      exact hk.symm
    · have le1 := pairwise_getD_key l hsort i m hlt1 (by omega)
      have le2 := pairwise_getD_key l hsort m j hlt2 hj
      rw [← hk] at le2
      exact keyLe_antisymm _ _ le1 le2

theorem rankTable_rank_eq_of_key_eq (l : List TableRow)
    (hsort : l.Pairwise (fun a b => keyLe (tupleKey b) (tupleKey a) = true)) :
    ∀ (d i : Nat), i + d < l.length →
      tupleKey ((rankTable l).getD i blankRanked).1 =
        tupleKey ((rankTable l).getD (i + d) blankRanked).1 →
      ((rankTable l).getD i blankRanked).2 =
        ((rankTable l).getD (i + d) blankRanked).2 := by
  intro d
  induction d with
  | zero => intro i _ _; rfl
  | succ d ih =>
    intro i h0 hk0
    have h : i + d + 1 < l.length := h0
    have hl1 : i < l.length := by omega
    have hl2 : i + 1 < l.length := by omega
    have hk : tupleKey ((rankTable l).getD i blankRanked).1 =
        tupleKey ((rankTable l).getD (i + d + 1) blankRanked).1 := hk0
    rw [rankTable_fst l i hl1, rankTable_fst l (i + d + 1) h] at hk
    have hk1 : tupleKey (l.getD (i + 1) blankRow) = tupleKey (l.getD i blankRow) :=
      key_between l hsort i (i + d + 1) (i + 1) (by omega) (by omega) h hk
    have hk2 : tupleKey (l.getD (i + 1) blankRow) =
        tupleKey (l.getD (i + d + 1) blankRow) := by
      rw [hk1, hk]
    have hrl : i + 1 < (rankTable l).length := by rw [rankTable_length]; omega
    have hsucc := rankTable_getD_succ l i hrl
    rw [rankTable_fst l (i + 1) hl2, rankTable_fst l i hl1, if_pos hk1] at hsucc
    have e : i + 1 + d = i + d + 1 := by omega
    have hih := ih (i + 1) (by omega)
      (by rw [rankTable_fst l (i + 1) hl2, e, rankTable_fst l (i + d + 1) h]; exact hk2)
    rw [e] at hih
    show ((rankTable l).getD i blankRanked).2 = ((rankTable l).getD (i + d + 1) blankRanked).2
    exact hsucc.symm.trans hih

/-- C6: the standings table is sorted by the medal 4-tuple descending with
name ascending among equal tuples; the first row has rank 1; a row with the
same tuple as its predecessor repeats the predecessor's rank, any two rows
with an identical tuple share the rank, a row opening a new tuple group
gets its own 1-based row index as rank, and the rank sequence is determined
by the tuple sequence alone — names never enter the rank computation. -/
theorem C6_ranking (trows : List TableRow) :
    (sortTable trows).Pairwise (fun a b => keyLe (tupleKey b) (tupleKey a) = true) ∧
    (sortTable trows).Pairwise
      (fun a b => tupleKey a = tupleKey b → strLe a.name b.name = true) ∧
    (rankTable (sortTable trows)).map Prod.fst = sortTable trows ∧
    (0 < (rankTable (sortTable trows)).length →
      ((rankTable (sortTable trows)).getD 0 blankRanked).2 = 1) ∧
    (∀ k : Nat, k + 1 < (rankTable (sortTable trows)).length →
      tupleKey ((rankTable (sortTable trows)).getD (k + 1) blankRanked).1 =
        tupleKey ((rankTable (sortTable trows)).getD k blankRanked).1 →
      ((rankTable (sortTable trows)).getD (k + 1) blankRanked).2 =
        ((rankTable (sortTable trows)).getD k blankRanked).2) ∧
    (∀ k : Nat, k + 1 < (rankTable (sortTable trows)).length →
      tupleKey ((rankTable (sortTable trows)).getD (k + 1) blankRanked).1 ≠
        tupleKey ((rankTable (sortTable trows)).getD k blankRanked).1 →
      ((rankTable (sortTable trows)).getD (k + 1) blankRanked).2 = k + 2) ∧
    (∀ i j : Nat, i ≤ j → j < (rankTable (sortTable trows)).length →
      tupleKey ((rankTable (sortTable trows)).getD i blankRanked).1 =
        tupleKey ((rankTable (sortTable trows)).getD j blankRanked).1 →
      ((rankTable (sortTable trows)).getD i blankRanked).2 =
        ((rankTable (sortTable trows)).getD j blankRanked).2) ∧
    (∀ l2 : List TableRow, l2.map tupleKey = (sortTable trows).map tupleKey →
      (rankTable l2).map (fun x => x.2) =
        (rankTable (sortTable trows)).map (fun x => x.2)) := by
  refine ⟨sortTable_sorted_key trows, sortTable_sorted_name trows,
    rankTable_map_fst _, ?_, ?_, ?_, ?_, ?_⟩
  · intro hpos
    cases hs : sortTable trows with
    | nil => rw [hs, rankTable] at hpos; simp [assignPos] at hpos
    | cons t ts => exact rankTable_getD_zero t ts
  · intro k hk hkey
    rw [rankTable_getD_succ _ k hk, if_pos hkey]
  · intro k hk hkey
    rw [rankTable_getD_succ _ k hk, if_neg hkey]
  · intro i j hij hj hkey
    have hd : j = i + (j - i) := by omega
    rw [hd] at hkey ⊢
    exact rankTable_rank_eq_of_key_eq (sortTable trows) (sortTable_sorted_key trows)
      (j - i) i (by rw [rankTable_length] at hj; omega) hkey
  · intro l2 h2
    exact assignPos_snd_keydet l2 (sortTable trows) none 0 1 h2

/-- C6 witness: the tie table ranks 1, 1, 3, with the rank sequence
reproduced for differently named rows carrying the same medal keys. -/
theorem C6_ranking_witness :
    ((rankTable (sortTable trowsTie)).getD 0 blankRanked).2 = 1 ∧
    ((rankTable (sortTable trowsTie)).getD 1 blankRanked).2 =
      ((rankTable (sortTable trowsTie)).getD 0 blankRanked).2 ∧
    ((rankTable (sortTable trowsTie)).getD 2 blankRanked).2 = 3 ∧
    ((rankTable (sortTable trowsTie)).getD 0 blankRanked).2 =
      ((rankTable (sortTable trowsTie)).getD 1 blankRanked).2 ∧
    (rankTable trowsTieRenamed).map (fun x => x.2) =
      (rankTable (sortTable trowsTie)).map (fun x => x.2) :=
  ⟨(C6_ranking trowsTie).2.2.2.1 (by decide),
   (C6_ranking trowsTie).2.2.2.2.1 0 (by decide) (by decide),
   (C6_ranking trowsTie).2.2.2.2.2.1 1 (by decide) (by decide),
   (C6_ranking trowsTie).2.2.2.2.2.2.1 0 1 (by decide) (by decide) (by decide),
   (C6_ranking trowsTie).2.2.2.2.2.2.2 trowsTieRenamed (by decide)⟩
